import Mathlib

/-!
Verification of the binary event-feed decoder of this repository.

The decoder lives in `src/deserializer.py` (class `Deserializer`, producing the
typed records of `src/models.py`) with a second implementation of the same
format in `src/final.py` (class `UnifiedParser`).  Both operate on an
`io.BytesIO` over a byte buffer, with absolute `tell`/`seek` bookkeeping.

The shallow embedding below represents the byte buffer as a `List Nat`
(each element a byte value `< 256`) together with an explicit stream
position.  `read(n)` on `io.BytesIO` returns up to `n` bytes and advances
the position by the number of bytes actually returned, so it is modelled by
`readBytes`, which never fails.  Python exceptions that can escape the
decoder (`IndexError` from `read(1)[0]` at end of stream, strict
`UnicodeDecodeError`, `ValueError` from `int(...)`, `AttributeError` from
`.items()` on a non-dict) are modelled with an `Except` error monad.

Python `while` loops whose progress is data dependent are given an explicit
fuel argument; top-level wrappers pass a fuel that is large enough for any
input (every loop iteration of the source consumes at least one byte, or is
a final iteration), so the fuel-exhaustion branch is never reached there.
-/

namespace PyLib

/-- A byte is modelled as a `Nat` (values `< 256` in any real buffer). -/
abbrev Byte := Nat

/-- Python exceptions that can escape the decoding routines. -/
inductive PyErr where
  | indexError
  | unicodeDecodeError
  | valueError
  | attributeError
  deriving DecidableEq, Repr

/-- `stream.read(n)` of `io.BytesIO`: returns up to `n` bytes starting at
`pos` and the new position (advanced by the number of bytes returned). -/
def readBytes (buf : List Byte) (pos n : Nat) : List Byte × Nat :=
  ((buf.drop pos).take n, min (pos + n) buf.length)

/-- Characters Python's `str.strip()` removes, restricted to ASCII
whitespace (the protocol's strings are ASCII; Unicode spaces are not
modelled). -/
def pyIsSpace (c : Char) : Bool :=
  c = ' ' ∨ c.toNat = 9 ∨ c.toNat = 10 ∨ c.toNat = 11 ∨ c.toNat = 12 ∨ c.toNat = 13

/-- Python `str.strip()`: drop leading and trailing whitespace. -/
def pyStrip (s : String) : String :=
  let l := s.data.dropWhile pyIsSpace
  String.mk ((l.reverse.dropWhile pyIsSpace).reverse)

/-- ASCII decimal digit test. -/
def isDigitChar (c : Char) : Bool :=
  0x30 ≤ c.toNat ∧ c.toNat ≤ 0x39

/-- Numeric value of a list of ASCII digit characters. -/
def digitsVal (l : List Char) : Nat :=
  l.foldl (fun acc c => acc * 10 + (c.toNat - 0x30)) 0

/-- Python `int(s)` on a decimal string: surrounding whitespace is ignored,
an optional sign is allowed, and the remainder must be a nonempty run of
ASCII digits; any other string raises `ValueError` (`none` here).
Underscore separators and non-ASCII digits, which CPython also accepts, are
not modelled — no string produced by this protocol contains them. -/
def pyIntOfString (s : String) : Option Int :=
  let t := (pyStrip s).data
  match t with
  | [] => none
  | c :: rest =>
    if c = '-' then
      if rest ≠ [] ∧ rest.all isDigitChar then some (-(digitsVal rest : Int)) else none
    else if c = '+' then
      if rest ≠ [] ∧ rest.all isDigitChar then some ((digitsVal rest : Int)) else none
    else
      if (c :: rest).all isDigitChar then some ((digitsVal (c :: rest) : Int)) else none

/-- Is `b` a UTF-8 continuation byte (`0x80`–`0xBF`)? -/
def isCont (b : Byte) : Bool :=
  0x80 ≤ b ∧ b ≤ 0xBF

/-- UTF-8 decoding with `errors='ignore'`: bytes of an invalid sequence are
dropped and decoding continues.  (CPython drops exactly the offending
bytes; this model drops the offending lead byte and rescans, which agrees
with CPython on all-ASCII input and on the inputs used below.) -/
def utf8IgnoreF : Nat → List Byte → List Char
  | 0, _ => []
  | _, [] => []
  | fuel + 1, b :: rest =>
    if b < 0x80 then Char.ofNat b :: utf8IgnoreF fuel rest
    else if 0xC2 ≤ b ∧ b ≤ 0xDF then
      match rest with
      | c1 :: rest' =>
        if isCont c1 then
          Char.ofNat ((b - 0xC0) * 0x40 + (c1 - 0x80)) :: utf8IgnoreF fuel rest'
        else utf8IgnoreF fuel rest
      | [] => []
    else if 0xE0 ≤ b ∧ b ≤ 0xEF then
      match rest with
      | c1 :: c2 :: rest' =>
        if (if b = 0xE0 then 0xA0 ≤ c1 ∧ c1 ≤ 0xBF
            else if b = 0xED then 0x80 ≤ c1 ∧ c1 ≤ 0x9F
            else isCont c1) ∧ isCont c2 then
          Char.ofNat ((b - 0xE0) * 0x1000 + (c1 - 0x80) * 0x40 + (c2 - 0x80)) :: utf8IgnoreF fuel rest'
        else utf8IgnoreF fuel rest
      | _ => utf8IgnoreF fuel rest
    else if 0xF0 ≤ b ∧ b ≤ 0xF4 then
      match rest with
      | c1 :: c2 :: c3 :: rest' =>
        if (if b = 0xF0 then 0x90 ≤ c1 ∧ c1 ≤ 0xBF
            else if b = 0xF4 then 0x80 ≤ c1 ∧ c1 ≤ 0x8F
            else isCont c1) ∧ isCont c2 ∧ isCont c3 then
          Char.ofNat ((b - 0xF0) * 0x40000 + (c1 - 0x80) * 0x1000 +
            (c2 - 0x80) * 0x40 + (c3 - 0x80)) :: utf8IgnoreF fuel rest'
        else utf8IgnoreF fuel rest
      | _ => utf8IgnoreF fuel rest
    else utf8IgnoreF fuel rest

/-- UTF-8 decoding with `errors='ignore'`: bytes of an invalid sequence are
dropped and decoding continues.  (CPython drops exactly the offending
bytes; this model drops the offending lead byte and rescans, which agrees
with CPython on all-ASCII input and on the inputs used below.)  The fuel
`l.length` is enough: every step consumes at least one byte. -/
def utf8Ignore (l : List Byte) : List Char :=
  utf8IgnoreF l.length l

/-- `bytes.decode('utf-8', 'ignore')` as a `String`. -/
def utf8IgnoreStr (l : List Byte) : String :=
  String.mk (utf8Ignore l)

/-- Strict UTF-8 decoding, `bytes.decode('utf-8')`: `none` models
`UnicodeDecodeError`. -/
def utf8StrictF : Nat → List Byte → Option (List Char)
  | 0, [] => some []
  | 0, _ :: _ => none
  | _, [] => some []
  | fuel + 1, b :: rest =>
    if b < 0x80 then
      match utf8StrictF fuel rest with
      | some cs => some (Char.ofNat b :: cs)
      | none => none
    else if 0xC2 ≤ b ∧ b ≤ 0xDF then
      match rest with
      | c1 :: rest' =>
        if isCont c1 then
          match utf8StrictF fuel rest' with
          | some cs => some (Char.ofNat ((b - 0xC0) * 0x40 + (c1 - 0x80)) :: cs)
          | none => none
        else none
      | [] => none
    else if 0xE0 ≤ b ∧ b ≤ 0xEF then
      match rest with
      | c1 :: c2 :: rest' =>
        if (if b = 0xE0 then 0xA0 ≤ c1 ∧ c1 ≤ 0xBF
            else if b = 0xED then 0x80 ≤ c1 ∧ c1 ≤ 0x9F
            else isCont c1) ∧ isCont c2 then
          match utf8StrictF fuel rest' with
          | some cs =>
            some (Char.ofNat ((b - 0xE0) * 0x1000 + (c1 - 0x80) * 0x40 + (c2 - 0x80)) :: cs)
          | none => none
        else none
      | _ => none
    else if 0xF0 ≤ b ∧ b ≤ 0xF4 then
      match rest with
      | c1 :: c2 :: c3 :: rest' =>
        if (if b = 0xF0 then 0x90 ≤ c1 ∧ c1 ≤ 0xBF
            else if b = 0xF4 then 0x80 ≤ c1 ∧ c1 ≤ 0x8F
            else isCont c1) ∧ isCont c2 ∧ isCont c3 then
          match utf8StrictF fuel rest' with
          | some cs =>
            some (Char.ofNat ((b - 0xF0) * 0x40000 + (c1 - 0x80) * 0x1000 +
              (c2 - 0x80) * 0x40 + (c3 - 0x80)) :: cs)
          | none => none
        else none
      | _ => none
    else none

/-- Strict UTF-8 decoding, `bytes.decode('utf-8')`: `none` models
`UnicodeDecodeError`.  The fuel `l.length` is enough: every step consumes
at least one byte. -/
def utf8Strict (l : List Byte) : Option (List Char) :=
  utf8StrictF l.length l

/-- `bytes.decode('utf-8')` as an optional `String`. -/
def utf8StrictStr (l : List Byte) : Option String :=
  (utf8Strict l).map String.mk

/-- Read bytes until end of stream or a byte in `stops`, WITHOUT consuming
the stopping byte (the source reads one byte, then seeks back on a stop).
Returns the run and the position of the stopping byte. -/
def readRunStop (stops : List Byte) (buf : List Byte) (pos : Nat) : List Byte × Nat :=
  let run := (buf.drop pos).takeWhile (fun b => !stops.contains b)
  (run, pos + run.length)

/-- Read bytes until end of stream or a `0x00` byte, CONSUMING the `0x00`
(the `LastGames` draw loops read the terminator without seeking back). -/
def readRunConsumeZero (buf : List Byte) (pos : Nat) : List Byte × Nat :=
  let run := (buf.drop pos).takeWhile (fun b => b ≠ 0)
  (run, if pos + run.length < buf.length then pos + run.length + 1 else pos + run.length)

end PyLib

namespace PyLib

/-- The heterogeneous values the `_parse_value` methods can return:
Python `None`, `int`, `str` or raw `bytes`. -/
inductive PyVal where
  | vNone
  | vInt (n : Int)
  | vStr (s : String)
  | vBytes (bs : List Byte)
  deriving DecidableEq, Repr

namespace Deser

/-- `_decode_single_byte_value` of `src/deserializer.py`: the byte value
itself, except that `:` (0x3A) decodes to 10.  (The `None` guard of the
source is irrelevant here: every call site passes a byte.) -/
def decode_single_byte_value (b : Byte) : Nat :=
  if b = 0x3A then 10 else b

/-- `_decode_multi_byte_value`: little-endian integer of a byte string,
`None` for the empty byte string. -/
def decode_multi_byte_value (bs : List Byte) : Option Nat :=
  if bs = [] then none else some (bs.foldr (fun b acc => b + 256 * acc) 0)

/-- `Deserializer._parse_value`: marker-driven scalar decoder.
`.error .valueError` models the uncaught `int(val_str)` exception of the
`0x81`/`0x82` branch. -/
def parse_value (buf : List Byte) (pos : Nat) : Except PyErr (PyVal × Nat) :=
  match buf[pos]? with
  | none => .ok (.vNone, pos)
  | some marker =>
    let p := pos + 1
    if marker = 0x22 then
      let (bs, p') := readBytes buf p 3
      match decode_multi_byte_value bs with
      | some n => .ok (.vInt n, p')
      | none => .ok (.vNone, p')
    else if marker = 0x8a ∨ marker = 0x85 then
      let (run, p') := readRunStop [0x00, 0x01, 0x02, 0x0c, 0x08, 0x09] buf p
      .ok (.vStr (pyStrip (utf8IgnoreStr run)), p')
    else if marker = 0x81 ∨ marker = 0x82 then
      let (run, p') := readRunStop [0x00] buf p
      let s := utf8IgnoreStr run
      if s = "" then .ok (.vInt 0, p')
      else
        match pyIntOfString s with
        | some n => .ok (.vInt n, p')
        | none => .error .valueError
    else if marker = 0x20 then
      let (bs, p') := readBytes buf p 1
      .ok (.vInt ((bs.foldl (fun acc b => acc * 256 + b) 0 : Nat) : Int), p')
    else if marker = 0x07 then
      let (bs, p') := readBytes buf p 6
      .ok (.vBytes bs, min (p' + 2) buf.length)
    else
      .ok (.vInt (marker : Int), p)

/-- Values stored in a generic object: a scalar or a nested object
(ordered name-value list, Python `dict` insertion order). -/
inductive ObjVal where
  | v (x : PyVal)
  | o (fields : List (String × ObjVal))

/-- Python `obj[k] = x` on an insertion-ordered `dict`: replace in place if
the key exists, else append. -/
def dictInsert {α : Type} (l : List (String × α)) (k : String) (x : α) :
    List (String × α) :=
  if l.any (fun p => p.1 = k) then l.map (fun p => if p.1 = k then (k, x) else p)
  else l ++ [(k, x)]

/-- Python `dict` lookup (`d.get(k)` / `k in d`). -/
def dictGet {α : Type} (l : List (String × α)) (k : String) : Option α :=
  (l.find? (fun p => p.1 = k)).map (fun p => p.2)

/-- Python truthiness of the scope value `last_field_in_scope`: `None` and
the empty string are both falsy. -/
def truthy : Option String → Bool
  | none => false
  | some s => !(s == "")

/-- `Deserializer._parse_generic_object_dict`: recursive parser for
generic containers.  The `fuel` argument bounds the loop/descent count;
wrappers below pass a fuel that is provably never exhausted (each loop
iteration of the source consumes at least one byte).  `.error .indexError`
models the uncaught `self.stream.read(1)[0]` at end of stream. -/
def parse_generic_object_dict (buf : List Byte) :
    Nat → Nat → List (String × ObjVal) → Option String →
    Except PyErr (List (String × ObjVal) × Option String × Nat)
  | 0, pos, obj, lf => .ok (obj, lf, pos)
  | fuel + 1, pos, obj, lf =>
    match buf[pos]? with
    | none => .ok (obj, lf, pos)
    | some marker =>
      if marker = 0 then .ok (obj, lf, pos + 1)
      else if marker = 1 then
        match buf[pos + 1]? with
        | none => .error .indexError
        | some nameLen =>
          let (nameBytes, p2) := readBytes buf (pos + 2) nameLen
          let name := utf8IgnoreStr nameBytes
          match parse_generic_object_dict buf fuel p2 [] lf with
          | .error e => .error e
          | .ok (inner, lfInner, p3) =>
            let lf' := if truthy lfInner then lfInner else lf
            parse_generic_object_dict buf fuel p3 (dictInsert obj name (.o inner)) lf'
      else if marker = 2 then
        match buf[pos + 1]? with
        | none => .error .indexError
        | some fieldLen =>
          let (fieldBytes, p2) := readBytes buf (pos + 2) fieldLen
          let fieldName := utf8IgnoreStr fieldBytes
          match parse_value buf p2 with
          | .error e => .error e
          | .ok (v, p3) =>
            parse_generic_object_dict buf fuel p3 (dictInsert obj fieldName (.v v))
              (some fieldName)
      else if marker = 0x0c then
        if truthy lf then
          match parse_value buf (pos + 1) with
          | .error e => .error e
          | .ok (v, p2) =>
            parse_generic_object_dict buf fuel p2 (dictInsert obj (lf.getD "") (.v v)) lf
        else
          parse_generic_object_dict buf fuel (pos + 1) obj lf
      else
        parse_generic_object_dict buf fuel (pos + 1) obj lf

end Deser

end PyLib

namespace PyLib

namespace Deser

/-- `models.Game`: one `LastGames` entry (`number` and `draw` keep the
heterogeneous Python values the parser assigns). -/
structure Game where
  name : String
  number : PyVal
  draw : PyVal
  deriving DecidableEq, Repr

/-- `models.HotColdItem`: key, draw and hits as decoded single bytes. -/
structure HotColdItem where
  key : Nat
  draw : Nat
  hits : Nat
  deriving DecidableEq, Repr

/-- The key of a `models.HitsItem`: a decoded string (explicit key) or the
integer decoded from the key byte (implicit key). -/
inductive HitsKey where
  | str (s : String)
  | int (n : Nat)
  deriving DecidableEq, Repr

/-- `models.HitsItem`. -/
structure HitsItem where
  key : HitsKey
  hits : Nat
  deriving DecidableEq, Repr

/-- `models.Event` as assembled by `Deserializer._parse_event_object`:
the generic-dict fields looked up by name (a missing field is `none`,
Python `None`), plus one `Market` per child of the `Market` container. -/
structure Event where
  id : Option Nat
  type : Option ObjVal
  time : Option ObjVal
  number : Option ObjVal
  duration : Option ObjVal
  has_levels : Option ObjVal
  markets : List (String × ObjVal)

/-- `models.Info` as assembled by `Deserializer._parse_info_object`. -/
structure Info where
  id : PyVal
  valid_from : PyVal
  last_games : List Game
  hot : List HotColdItem
  cold : List HotColdItem
  hits : List HitsItem

/-- A decoded top-level frame: an `Event` or an `Info` record. -/
inductive TopObj where
  | event (e : Event)
  | info (i : Info)

/-- `Deserializer._parse_hot_cold_list`.  Total: every read of the source
is guarded, so this loop cannot raise.  The source also tracks a
`field_name` variable (updated by the `0x02` branch) that never reaches
the emitted `HotColdItem` records, so it is not threaded here. -/
def parse_hot_cold_list (buf : List Byte) : Nat → Nat → List HotColdItem × Nat
  | 0, pos => ([], pos)
  | fuel + 1, pos =>
    match buf[pos]? with
    | none => ([], pos)
    | some kb =>
      if kb = 1 ∨ kb = 0 then ([], pos)
      else
        let key := decode_single_byte_value kb
        match buf[pos + 1]? with
        | none => ([], pos)
        | some tb =>
          if tb ≠ 9 then ([], pos)
          else
            -- optional single 0x20 after the tab; when the read fails at end
            -- of stream the source's seek(tell-1) steps back onto the tab
            let dp := match buf[pos + 2]? with
                      | some sp => if sp = 0x20 then pos + 3 else pos + 2
                      | none => pos + 1
            match buf[dp]? with
            | none => ([], dp)
            | some db =>
              let draw := decode_single_byte_value db
              let finish := fun (hits q : Nat) =>
                let item : HotColdItem := ⟨key, draw, hits⟩
                match buf[q]? with
                | none => ([item], q - 1)
                | some tm =>
                  if tm = 0 then
                    let r := parse_hot_cold_list buf fuel (q + 1)
                    (item :: r.1, r.2)
                  else ([item], q)
              match buf[dp + 1]? with
              | none => ([], dp + 1)
              | some mk =>
                if mk = 2 then
                  match buf[dp + 2]? with
                  | none => ([], dp + 2)
                  | some fl =>
                    let (fnB, p') := readBytes buf (dp + 3) fl
                    if fnB.length < fl then ([], p')
                    else
                      match buf[p']? with
                      | none => ([], p')
                      | some hb => finish (decode_single_byte_value hb) (p' + 1)
                else if mk = 16 then
                  match buf[dp + 2]? with
                  | none => ([], dp + 2)
                  | some hb => finish (decode_single_byte_value hb) (dp + 3)
                else ([], pos)

/-- `Deserializer._parse_hits_object`.  Total: every read is guarded. -/
def parse_hits_object (buf : List Byte) : Nat → Nat → List HitsItem × Nat
  | 0, pos => ([], pos)
  | fuel + 1, pos =>
    match buf[pos]? with
    | none => ([], pos)
    | some pb =>
      if pb = 0 then ([], pos)
      else
        -- lookahead: a 0x01 followed by the length-prefixed name
        -- "PreviousResults" ends the list without consuming anything
        let stopPrev :=
          if pb = 1 then
            match buf[pos + 1]? with
            | none => false
            | some nl =>
              if pos + 2 + nl ≤ buf.length then
                utf8IgnoreStr ((buf.drop (pos + 2)).take nl) = "PreviousResults"
              else false
          else false
        if stopPrev then ([], pos)
        else
          let finish := fun (key : HitsKey) (p : Nat) =>
            match buf[p]? with
            | none => ([], pos)
            | some mk =>
              if mk ≠ 16 then ([], pos)
              else
                match buf[p + 1]? with
                | none => ([], p + 1)
                | some vb =>
                  let item : HitsItem := ⟨key, decode_single_byte_value vb⟩
                  let q := p + 2
                  match buf[q]? with
                  | none => ([item], q - 1)
                  | some tm =>
                    if tm = 0 then
                      let r := parse_hits_object buf fuel (q + 1)
                      (item :: r.1, r.2)
                    else ([item], q)
          if pb = 1 then
            match buf[pos + 1]? with
            | none => ([], pos + 1)
            | some kl =>
              let (kB, p1) := readBytes buf (pos + 2) kl
              if kB.length < kl then ([], p1)
              else finish (.str (utf8IgnoreStr kB)) p1
          else
            finish (.int (decode_single_byte_value pb)) (pos + 1)

/-- `Deserializer._parse_last_games_list`.  The `firstDone` flag models
`if not fields:` (the `fields` list is only ever tested for emptiness).
`.error` propagates the uncaught `read(1)[0]` / `int()` exceptions of the
verbose first-entry branch and of `_parse_value`. -/
def parse_last_games_list (buf : List Byte) : Nat → Nat → Bool →
    Except PyErr (List Game × Nat)
  | 0, pos, _ => .ok ([], pos)
  | fuel + 1, pos, firstDone =>
    match buf[pos]? with
    | none => .ok ([], pos)
    | some m =>
      if m ≠ 1 then .ok ([], pos)
      else
        match buf[pos + 1]? with
        | none => .ok ([], pos)
        | some nl =>
          if buf.length < pos + 2 + nl then .ok ([], pos)
          else
            let name := utf8IgnoreStr ((buf.drop (pos + 2)).take nl)
            if name = "Hot" ∨ name = "Cold" ∨ name = "Hits" ∨ name = "PreviousResults" then
              .ok ([], pos)
            else
              let p := pos + 2 + nl
              if firstDone then
                match buf[p]? with
                | none => .ok ([], pos)
                | some m1 =>
                  if m1 ≠ 8 then .ok ([], pos)
                  else
                    match parse_value buf (p + 1) with
                    | .error e => .error e
                    | .ok (num, p1) =>
                      match buf[p1]? with
                      | none => .ok ([], pos)
                      | some m2 =>
                        if m2 ≠ 9 then .ok ([], pos)
                        else
                          let (run, p2) := readRunConsumeZero buf (p1 + 1)
                          let draw : PyVal :=
                            if run = [] then .vInt 0
                            else
                              let s := pyStrip (utf8IgnoreStr run)
                              match pyIntOfString s with
                              | some n => .vInt n
                              | none =>
                                if s.length = 1 then
                                  .vInt ((decode_single_byte_value
                                    (s.data.headD ' ').toNat : Nat) : Int)
                                else if s = "" then .vInt 0 else .vStr s
                          match parse_last_games_list buf fuel p2 true with
                          | .error e => .error e
                          | .ok (tail, fp) => .ok (⟨name, num, draw⟩ :: tail, fp)
              else
                let p1 := min (p + 1) buf.length
                match buf[p1]? with
                | none => .error .indexError
                | some fl =>
                  let (_, p2) := readBytes buf (p1 + 1) fl
                  match parse_value buf p2 with
                  | .error e => .error e
                  | .ok (num, p3) =>
                    let p4 := min (p3 + 1) buf.length
                    match buf[p4]? with
                    | none => .error .indexError
                    | some fl2 =>
                      let (_, p5) := readBytes buf (p4 + 1) fl2
                      let (run, p6) := readRunConsumeZero buf p5
                      let s := pyStrip (utf8IgnoreStr run)
                      let draw : PyVal :=
                        match pyIntOfString s with
                        | some n => .vInt n
                        | none => if s = "" then .vInt 0 else .vStr s
                      match parse_last_games_list buf fuel p6 true with
                      | .error e => .error e
                      | .ok (tail, fp) => .ok (⟨name, num, draw⟩ :: tail, fp)

end Deser

end PyLib

namespace PyLib

namespace Deser

/-- `Deserializer._parse_event_object`: run the generic parser with a fresh
(empty) scope and assemble the `Event` record; `Market`'s children become
the market list.  `.items()` on a non-dict `Market` value raises
`AttributeError`. -/
def parse_event_object (buf : List Byte) (pos : Nat) (eventId : Option Nat) :
    Except PyErr (Event × Nat) :=
  match parse_generic_object_dict buf (2 * buf.length + 2) pos [] none with
  | .error e => .error e
  | .ok (d, _, p) =>
    match dictGet d "Market" with
    | some (.v _) => .error .attributeError
    | some (.o l) =>
      .ok ({ id := eventId, type := dictGet d "Type", time := dictGet d "Time",
             number := dictGet d "Number", duration := dictGet d "Duration",
             has_levels := dictGet d "HasLevels", markets := l }, p)
    | none =>
      .ok ({ id := eventId, type := dictGet d "Type", time := dictGet d "Time",
             number := dictGet d "Number", duration := dictGet d "Duration",
             has_levels := dictGet d "HasLevels", markets := [] }, p)

/-- Accumulator of the four `Info` sub-lists while the info loop runs
(a repeated section name overwrites the previous assignment, as in the
source). -/
structure InfoAcc where
  last_games : List Game
  hot : List HotColdItem
  cold : List HotColdItem
  hits : List HitsItem

/-- The section-dispatch loop of `Deserializer._parse_info_object`:
skip `0x00` separators, dispatch `0x01` length+name sections, stop on any
other byte or end of stream. -/
def parse_info_loop (buf : List Byte) : Nat → Nat → InfoAcc →
    Except PyErr (InfoAcc × Nat)
  | 0, pos, acc => .ok (acc, pos)
  | fuel + 1, pos, acc =>
    match buf[pos]? with
    | none => .ok (acc, pos)
    | some b =>
      if b = 0 then parse_info_loop buf fuel (pos + 1) acc
      else if b = 1 then
        match buf[pos + 1]? with
        | none => .error .indexError
        | some nl =>
          let (nameBytes, p2) := readBytes buf (pos + 2) nl
          let name := utf8IgnoreStr nameBytes
          if name = "PreviousResults" then
            parse_info_loop buf fuel (min (p2 + 1) buf.length) acc
          else if name = "LastGames" then
            match parse_last_games_list buf (buf.length + 2) p2 false with
            | .error e => .error e
            | .ok (g, p3) => parse_info_loop buf fuel p3 { acc with last_games := g }
          else if name = "Hot" then
            let r := parse_hot_cold_list buf (buf.length + 2) p2
            parse_info_loop buf fuel r.2 { acc with hot := r.1 }
          else if name = "Cold" then
            let r := parse_hot_cold_list buf (buf.length + 2) p2
            parse_info_loop buf fuel r.2 { acc with cold := r.1 }
          else if name = "Hits" then
            let r := parse_hits_object buf (buf.length + 2) p2
            parse_info_loop buf fuel r.2 { acc with hits := r.1 }
          else
            parse_info_loop buf fuel p2 acc
      else
        .ok (acc, pos)

/-- `Deserializer._parse_info_object`: two fixed leading fields (marker
byte discarded, length-prefixed name discarded, value via `_parse_value`),
then the section loop. -/
def parse_info_object (buf : List Byte) (pos : Nat) : Except PyErr (Info × Nat) :=
  let p0 := min (pos + 1) buf.length
  match buf[p0]? with
  | none => .error .indexError
  | some idLen =>
    let (_, p1) := readBytes buf (p0 + 1) idLen
    match parse_value buf p1 with
    | .error e => .error e
    | .ok (eid, p2) =>
      let p3 := min (p2 + 1) buf.length
      match buf[p3]? with
      | none => .error .indexError
      | some vfLen =>
        let (_, p4) := readBytes buf (p3 + 1) vfLen
        match parse_value buf p4 with
        | .error e => .error e
        | .ok (vf, p5) =>
          match parse_info_loop buf (buf.length + 2) p5 ⟨[], [], [], []⟩ with
          | .error e => .error e
          | .ok (acc, p6) =>
            .ok ({ id := eid, valid_from := vf, last_games := acc.last_games,
                   hot := acc.hot, cold := acc.cold, hits := acc.hits }, p6)

/-- The scan loop of `Deserializer.deserialize`: scan for `0x22`, read a
3-byte little-endian id, require the `0x01` object marker (else continue
scanning right after the rejected marker byte), then read the
length-prefixed frame-kind name with STRICT UTF-8 decoding and dispatch.

`instLf` models the instance attribute `self.last_field_name` set by
`Deserializer.__init__`: the source assigns it once and never reads it, so
it is carried through the loop untouched. -/
def deserialize_loop (buf : List Byte) : Nat → Nat → List TopObj → Option String →
    Except PyErr (List TopObj)
  | 0, _, acc, _ => .ok acc
  | fuel + 1, pos, acc, instLf =>
    if pos < buf.length then
      match buf[pos]? with
      | none => .ok acc
      | some b =>
        if b = 0x22 then
          let (header, p1) := readBytes buf (pos + 1) 3
          let idv := decode_multi_byte_value header
          match buf[p1]? with
          | none => deserialize_loop buf fuel p1 acc instLf
          | some m =>
            if m ≠ 1 then deserialize_loop buf fuel (p1 + 1) acc instLf
            else
              match buf[p1 + 1]? with
              | none => .ok acc
              | some nameLen =>
                let (nameBytes, p2) := readBytes buf (p1 + 2) nameLen
                match utf8StrictStr nameBytes with
                | none => .error .unicodeDecodeError
                | some name =>
                  if name = "event" then
                    match parse_event_object buf p2 idv with
                    | .error e => .error e
                    | .ok (e, p3) =>
                      deserialize_loop buf fuel p3 (acc ++ [.event e]) instLf
                  else if name = "info" then
                    match parse_info_object buf p2 with
                    | .error e => .error e
                    | .ok (i, p3) =>
                      deserialize_loop buf fuel p3 (acc ++ [.info i]) instLf
                  else
                    deserialize_loop buf fuel p2 acc instLf
        else
          deserialize_loop buf fuel (pos + 1) acc instLf
    else .ok acc

/-- `Deserializer(data).deserialize()`: fresh instance state (`position 0`,
`last_field_name = None`), then the scan loop. -/
def deserialize (buf : List Byte) : Except PyErr (List TopObj) :=
  deserialize_loop buf (buf.length + 2) 0 [] none

end Deser

end PyLib

namespace PyLib

namespace Final

/-- `decode_single_byte_value` of `src/final.py`: an ASCII digit byte
decodes to its numeric value, `:` (0x3A) to 10, any other byte to itself. -/
def decode_single_byte_value (b : Byte) : Nat :=
  if 0x30 ≤ b ∧ b ≤ 0x39 then b - 0x30
  else if b = 0x3A then 10 else b

/-- `UnifiedParser._parse_hot_cold_list` of `src/final.py`: emits
`obj[i] = Python-dict with keys Draw and field_name`, where the explicit
`0x02` field-name declaration persists (the `field_name` local) for the
rest of the list.  `.error .indexError` models the unguarded
`field_len = self.stream.read(1)[0]`. -/
def parse_hot_cold_list (buf : List Byte) :
    Nat → Nat → Nat → String →
    Except PyErr (List (Nat × List (String × Nat)) × Nat)
  | 0, pos, _, _ => .ok ([], pos)
  | fuel + 1, pos, i, fn =>
    match buf[pos]? with
    | none => .ok ([], pos)
    | some pb =>
      if pb = 1 then .ok ([], pos)
      else
        -- the key byte is read but ignored for the output key
        match buf[pos + 1]? with
        | none => .ok ([], pos)
        | some tb =>
          if tb ≠ 9 then .ok ([], pos)
          else
            match buf[pos + 2]? with
            | none => .ok ([], pos + 2)
            | some db =>
              let draw := decode_single_byte_value db
              let finish := fun (hits q : Nat) (fn' : String) =>
                let item := (i, Deser.dictInsert [("Draw", draw)] fn' hits)
                match buf[q]? with
                | none => Except.ok ([item], q - 1)
                | some tm =>
                  if tm = 0 then
                    match parse_hot_cold_list buf fuel (q + 1) (i + 1) fn' with
                    | .error e => .error e
                    | .ok (tail, fp) => .ok (item :: tail, fp)
                  else .ok ([item], q)
              match buf[pos + 3]? with
              | none => .ok ([], pos + 3)
              | some mk =>
                if mk = 2 then
                  match buf[pos + 4]? with
                  | none => .error .indexError
                  | some fl =>
                    let (fnB, p') := readBytes buf (pos + 5) fl
                    let fn' := utf8IgnoreStr fnB
                    match buf[p']? with
                    | none => .ok ([], p')
                    | some hb => finish (decode_single_byte_value hb) (p' + 1) fn'
                else if mk = 16 then
                  match buf[pos + 4]? with
                  | none => .ok ([], pos + 4)
                  | some hb => finish (decode_single_byte_value hb) (pos + 5) fn
                else .ok ([], pos)

/-- `UnifiedParser._parse_hits_object` of `src/final.py`: implicit keys are
`str(i)` for the running item index `i`; values are a `0x00`-terminated
run (single byte via the single-byte rule, longer runs parsed as an
integer string when possible). -/
def parse_hits_object (buf : List Byte) : Nat → Nat → Nat →
    List (String × PyVal) × Nat
  | 0, pos, _ => ([], pos)
  | fuel + 1, pos, i =>
    match buf[pos]? with
    | none => ([], pos)
    | some pb =>
      if pb = 0 then ([], pos)
      else
        let stopPrev :=
          if pb = 1 then
            match buf[pos + 1]? with
            | none => false
            | some nl =>
              if pos + 2 + nl ≤ buf.length then
                utf8IgnoreStr ((buf.drop (pos + 2)).take nl) = "PreviousResults"
              else false
          else false
        if stopPrev then ([], pos)
        else
          let cont := fun (key : String) (p : Nat) =>
            match buf[p]? with
            | none => ([], pos)
            | some mk =>
              if mk ≠ 16 then ([], pos)
              else
                let (run, p2) := readRunConsumeZero buf (p + 1)
                let v : PyVal :=
                  if run = [] then .vInt 0
                  else if run.length = 1 then
                    .vInt ((decode_single_byte_value (run.headD 0) : Nat) : Int)
                  else
                    let s := utf8IgnoreStr run
                    match pyIntOfString s with
                    | some n => .vInt n
                    | none => .vStr s
                let r := parse_hits_object buf fuel p2 (i + 1)
                ((key, v) :: r.1, r.2)
          if pb = 1 then
            match buf[pos + 1]? with
            | none => ([], pos + 1)
            | some kl =>
              let (kB, p1) := readBytes buf (pos + 2) kl
              cont (utf8IgnoreStr kB) p1
          else
            cont (toString i) (pos + 1)

end Final

end PyLib

namespace PyLib

/-- The first concrete event frame used for the framer theorems: id bytes
`0x82 0x36 0x17`, kind `event`, one `Odds` field encoded `0x82 "36" 0x00`
whose trailing `0x00` also terminates the object. -/
def frameA : List Byte :=
  [0x22, 0x82, 0x36, 0x17, 0x01, 5, 0x65, 0x76, 0x65, 0x6E, 0x74,
   0x02, 4, 0x4F, 0x64, 0x64, 0x73, 0x82, 0x33, 0x36, 0x00]

/-- A second concrete event frame, id bytes `0x8C 0x36 0x17`. -/
def frameB : List Byte :=
  [0x22, 0x8C, 0x36, 0x17, 0x01, 5, 0x65, 0x76, 0x65, 0x6E, 0x74,
   0x02, 4, 0x4F, 0x64, 0x64, 0x73, 0x82, 0x33, 0x36, 0x00]

/-- C1: inside `_parse_generic_object_dict`, a repeat-shorthand byte `0x0C`
stores the decoded value under the nearest preceding `0x02`-declared field
name of the current or an ancestor scope, with a name discovered inside a
child container propagating back up to the parent.  Concretely, on the
fixture-shaped bytes `Win{Odds=0x82 "36" 0x00} Red{0x0C 0x81 "2" 0x00}`,
`Odds` decodes to integer 36, the sibling `Red` container's `0x0C` stores
integer 2 under the key `Odds` (the name declared inside `Win` and
propagated up through the parent), and the returned scope is `Odds`.
With no field name in scope, a `0x0C` (here followed by `0x81 "2" 0x00`)
stores nothing and decoding returns normally. -/
theorem repeat_shorthand_scope_C1 :
    Deser.parse_generic_object_dict
      [0x01, 3, 0x57, 0x69, 0x6E, 0x02, 4, 0x4F, 0x64, 0x64, 0x73,
       0x82, 0x33, 0x36, 0x00, 0x01, 3, 0x52, 0x65, 0x64,
       0x0C, 0x81, 0x32, 0x00, 0x00, 0x00] 60 0 [] none
      = .ok ([("Win", .o [("Odds", .v (.vInt 36))]),
              ("Red", .o [("Odds", .v (.vInt 2))])], some "Odds", 25)
    ∧ Deser.parse_generic_object_dict [0x0C, 0x81, 0x32, 0x00] 60 0 [] none
      = .ok ([], none, 4) :=
  ⟨rfl, rfl⟩

/-- C2: the single-byte decode rule.  `final.py`'s `decode_single_byte_value`
maps digit bytes to their numeric value (`'0'` to 0, `'9'` to 9) and `:` to
10, but `deserializer.py`'s `_decode_single_byte_value` does NOT handle
digits: byte `0x30` (`'0'`) decodes to 48, so a Hot/Cold entry with draw
byte `'0'` and hits byte `':'` yields draw 48 (not 0) from the
`Deserializer` path, contradicting the claimed rule at its Hot/Cold call
sites. -/
theorem single_byte_rule_C2 :
    Deser.decode_single_byte_value 0x30 = 48
    ∧ Deser.decode_single_byte_value 0x39 = 57
    ∧ Deser.decode_single_byte_value 0x3A = 10
    ∧ Final.decode_single_byte_value 0x30 = 0
    ∧ Final.decode_single_byte_value 0x39 = 9
    ∧ Final.decode_single_byte_value 0x3A = 10
    ∧ Final.decode_single_byte_value 0x21 = 0x21
    ∧ Deser.parse_hot_cold_list [0x0B, 9, 0x30, 0x10, 0x3A, 0x00] 10 0
      = ([⟨11, 48, 10⟩], 6) :=
  ⟨rfl, rfl, rfl, rfl, rfl, rfl, rfl, rfl⟩

/-- C4: the top-level decode is NOT exception-free.  A frame whose
length-prefixed kind name contains invalid UTF-8 (here the single byte
`0xFF`) raises `UnicodeDecodeError` out of `Deserializer.deserialize`
(line 46 decodes the frame name strictly, unlike every other name decode
in the file), and an event body ending right after a `0x01` marker raises
`IndexError` from `self.stream.read(1)[0]` instead of closing the
container at end of buffer. -/
theorem decode_totality_C4 :
    Deser.deserialize [0x22, 0, 0, 0, 0x01, 0x01, 0xFF] = .error .unicodeDecodeError
    ∧ Deser.deserialize [0x22, 0, 0, 0, 0x01, 5, 0x65, 0x76, 0x65, 0x6E, 0x74, 0x01]
      = .error .indexError :=
  ⟨rfl, rfl⟩

end PyLib

namespace PyLib

/-- C8 counterexample: for marker `0x07`, `Deserializer._parse_value` never
converts to a timestamp — even for the perfectly representable value 0
(six zero bytes, the 1970 epoch) it returns the raw 6 bytes, refuting the
claim that the raw bytes are returned only when conversion is out of
range. -/
theorem timestamp_raw_C8_counterexample :
    Deser.parse_value [0x07, 0, 0, 0, 0, 0, 0, 0, 0] 0
      = .ok (.vBytes [0, 0, 0, 0, 0, 0], 9) :=
  rfl

/-- C8 (amended): when `Deserializer._parse_value` reads marker `0x07` it
reads 6 bytes, then discards exactly 2 trailing padding bytes, and returns
the raw 6 bytes unconditionally (no conversion is attempted in
`deserializer.py`; `final.py` converts inside a `try` that catches the
out-of-range case), so this marker never raises. -/
theorem timestamp_raw_C8 (buf : List Byte) (pos : Nat) (h : buf[pos]? = some 0x07) :
    Deser.parse_value buf pos
      = .ok (.vBytes ((buf.drop (pos + 1)).take 6),
             min (min (pos + 7) buf.length + 2) buf.length) := by
  simp [Deser.parse_value, h, readBytes]

/-- C8 witness: the amended theorem at a concrete 9-byte buffer. -/
theorem timestamp_raw_C8_witness :
    Deser.parse_value [0x07, 1, 2, 3, 4, 5, 6, 9, 9] 0
      = .ok (.vBytes [1, 2, 3, 4, 5, 6], 9) := by
  simpa using timestamp_raw_C8 [0x07, 1, 2, 3, 4, 5, 6, 9, 9] 0 rfl

/-- C3 counterexample: after a rejected object-marker check the framer
does NOT resume scanning from the byte immediately after the `0x22`.  The
buffer `0x22 :: F`, where `F` is a well-formed single-frame buffer whose
frame decodes on its own, decodes to NO frames: the leading `0x22`'s
3-byte header swallows `F`'s `0x22`, and after the object-marker mismatch
scanning resumes five bytes later, past the real frame start.  Resuming
right after the first `0x22` would have found `F`'s frame. -/
theorem resync_framer_C3_counterexample :
    Deser.deserialize [0x22, 0x00, 0x00, 0x02, 0x01, 0x05, 0x65, 0x76, 0x65, 0x6E, 0x74, 0x00]
      = .ok [.event ⟨some 131072, none, none, none, none, none, []⟩]
    ∧ Deser.deserialize
        (0x22 :: [0x22, 0x00, 0x00, 0x02, 0x01, 0x05, 0x65, 0x76, 0x65, 0x6E, 0x74, 0x00])
      = .ok [] :=
  ⟨rfl, rfl⟩

/-- C3 (amended): the framer scans for `0x22`, decodes the following 3
bytes as a little-endian uint24 id (`0x82 0x36 0x17` gives 1521282) and
requires the next byte to be `0x01`; on a mismatch the candidate is
discarded and scanning resumes from the byte after the REJECTED MARKER
byte (five bytes past the `0x22`), not from the byte after the `0x22`;
a buffer of a valid frame, 3 junk bytes none of which is `0x22`, and a
second valid frame decodes to exactly 2 frames, both fully correct. -/
theorem resync_framer_C3 :
    Deser.decode_multi_byte_value [0x82, 0x36, 0x17] = some 1521282
    ∧ (∀ (buf : List Byte) (fuel pos : Nat) (acc : List Deser.TopObj)
        (instLf : Option String) (m : Byte),
        buf[pos]? = some 0x22 → buf[pos + 4]? = some m → m ≠ 1 →
        Deser.deserialize_loop buf (fuel + 1) pos acc instLf
          = Deser.deserialize_loop buf fuel (pos + 5) acc instLf)
    ∧ Deser.deserialize (frameA ++ [0xAA, 0xBB, 0xCC] ++ frameB)
      = .ok [.event ⟨some 1521282, none, none, none, none, none, []⟩,
             .event ⟨some 1521292, none, none, none, none, none, []⟩] := by
  refine ⟨rfl, ?_, rfl⟩
  intro buf fuel pos acc instLf m h1 h2 hm
  have hlt : pos + 4 < buf.length := (List.getElem?_eq_some.mp h2).1
  have hpos : pos < buf.length := by omega
  have hmin : min (pos + 1 + 3) buf.length = pos + 4 := by omega
  simp only [Deser.deserialize_loop, readBytes, hmin, if_pos hpos, h1, h2]
  simp [hm]

/-- C3 witness: the resync conjunct at a concrete 5-byte buffer whose
object-marker byte is 5. -/
theorem resync_framer_C3_witness :
    Deser.deserialize_loop [0x22, 9, 9, 9, 5] 4 0 [] none
      = Deser.deserialize_loop [0x22, 9, 9, 9, 5] 3 5 [] none :=
  resync_framer_C3.2.1 [0x22, 9, 9, 9, 5] 3 0 [] none 5 rfl rfl (by decide)

end PyLib

namespace PyLib

/-- Verbose first `LastGames` entry (name "0"): `Number` field via value
marker `0x20` (value 5), `Draw` field with an EMPTY byte run before its
`0x00` terminator. -/
def lgEntryA : List Byte := [1, 1, 0x30, 2, 1, 0x4E, 0x20, 5, 2, 1, 0x44, 0x00]

/-- Compact `LastGames` entry (name "1"): `0x08`, value 7, `0x09`, draw
run `":"` terminated by `0x00`. -/
def lgEntryB : List Byte := [1, 1, 0x31, 8, 0x20, 7, 9, 0x3A, 0x00]

/-- Compact `LastGames` entry (name "2"): `0x08`, value 3, `0x09`, TWO
draw bytes `"12"` terminated by `0x00`. -/
def lgEntryC : List Byte := [1, 1, 0x32, 8, 0x20, 3, 9, 0x31, 0x32, 0x00]

/-- Three `LastGames` entries followed by a `0x00` separator and a junk
byte, so the list's end is triggered by a non-`0x01` byte in the middle of
the buffer. -/
def lgBuf : List Byte := lgEntryA ++ lgEntryB ++ lgEntryC ++ [0x00, 0x55]

/-- C5 counterexample: on `lgBuf` the `LastGames` decoder (a) decodes the
compact entry "2" whose draw is the two-byte run `"12"` to integer 12 —
the draw is a `0x00`-terminated RUN, not a single byte via the single-byte
decode rule, which would give 1 and leave `"2"` unconsumed — and (b) stops
at position 31, where the next byte is `0x00`: not a `0x01`-led candidate
item whose name could be checked, and not end-of-buffer (the buffer has 33
bytes), refuting the claim that the list ends EXACTLY on the name
lookahead or at end-of-buffer. -/
theorem last_games_C5_counterexample :
    Deser.parse_last_games_list lgBuf 40 0 false
      = .ok ([⟨"0", .vInt 5, .vInt 0⟩, ⟨"1", .vInt 7, .vInt 10⟩,
              ⟨"2", .vInt 3, .vInt 12⟩], 31)
    ∧ lgBuf[31]? = some 0x00 ∧ lgBuf.length = 33 ∧ (0x00 : Byte) ≠ 0x01 :=
  ⟨rfl, rfl, rfl, by decide⟩

/-- C5 (amended): in `_parse_last_games_list` the first entry's `Draw` is
read as a byte run up to the next `0x00` and an empty run decodes to 0;
every subsequent compact entry is `0x08`, the `Number` via the value
decoder, `0x09`, then a `Draw` run up to a consumed `0x00`, parsed as an
integer when possible and otherwise decoded by the single-byte rule when
it is a single character (so a `":"` run decodes to 10, and a `"12"` run
to 12); and the list ends when the lookahead candidate's name is `Hot`,
`Cold`, `Hits` or `PreviousResults` (without consuming it), at
end-of-buffer, or when the next byte is not `0x01` (or a compact entry's
`0x08`/`0x09` markers are missing). -/
theorem last_games_C5 :
    Deser.parse_last_games_list lgBuf 40 0 false
      = .ok ([⟨"0", .vInt 5, .vInt 0⟩, ⟨"1", .vInt 7, .vInt 10⟩,
              ⟨"2", .vInt 3, .vInt 12⟩], 31)
    ∧ Deser.parse_last_games_list (lgEntryA ++ [0x01, 3, 0x48, 0x6F, 0x74] ++ [0x99]) 40 0 false
      = .ok ([⟨"0", .vInt 5, .vInt 0⟩], 12)
    ∧ Deser.parse_last_games_list lgEntryA 40 0 false
      = .ok ([⟨"0", .vInt 5, .vInt 0⟩], 12) :=
  ⟨rfl, rfl, rfl⟩

end PyLib

namespace PyLib

/-- The instance attribute `self.last_field_name` (set once in
`Deserializer.__init__`, never read) does not influence the scan loop:
scope state is passed explicitly through `_parse_generic_object_dict`'s
argument and return value only. -/
theorem deserialize_loop_lf_irrel (buf : List Byte) :
    ∀ (fuel pos : Nat) (acc : List Deser.TopObj) (lf : Option String),
      Deser.deserialize_loop buf fuel pos acc lf
        = Deser.deserialize_loop buf fuel pos acc none := by
  intro fuel
  induction fuel with
  | zero => intro pos acc lf; rfl
  | succ f ih =>
    intro pos acc lf
    simp only [Deser.deserialize_loop, ih]

/-- C9: decoding is deterministic and free of cross-invocation state: the
result of the top-level decode is a pure function of the buffer alone.
Whatever value the instance scope attribute `last_field_name` held, the
scan loop returns the same frames (the attribute is never consulted:
parser scope is passed explicitly down to and back up from
`_parse_generic_object_dict`), and a fresh `Deserializer` always starts
the loop at position 0 with accumulator `[]` and attribute `None`, so two
fresh runs on the same buffer yield identical output structures. -/
theorem deterministic_decode_C9 (buf : List Byte) (lf1 lf2 : Option String) :
    Deser.deserialize_loop buf (buf.length + 2) 0 [] lf1
      = Deser.deserialize_loop buf (buf.length + 2) 0 [] lf2
    ∧ Deser.deserialize buf = Deser.deserialize_loop buf (buf.length + 2) 0 [] none :=
  ⟨(deserialize_loop_lf_irrel buf (buf.length + 2) 0 [] lf1).trans
    (deserialize_loop_lf_irrel buf (buf.length + 2) 0 [] lf2).symm, rfl⟩

/-- C10: in `Deserializer._parse_hot_cold_list`, after the `0x09` tab and
before the draw byte a single `0x20` space byte is consumed and skipped,
so a draw encoded as space-then-`d` decodes to `d`'s single-byte value
alone; without the space the draw byte (`≠ 0x20`) is decoded directly; and
no space skip is applied before the hits byte: a `0x20` in hits position
is decoded as the hits value 32 itself. -/
theorem hot_cold_space_skip_C10 :
    (∀ k d h : Byte, k ≠ 0 → k ≠ 1 →
      Deser.parse_hot_cold_list [k, 9, 0x20, d, 0x10, h, 0] 2 0
        = ([⟨Deser.decode_single_byte_value k, Deser.decode_single_byte_value d,
             Deser.decode_single_byte_value h⟩], 7))
    ∧ (∀ k d h : Byte, k ≠ 0 → k ≠ 1 → d ≠ 0x20 →
      Deser.parse_hot_cold_list [k, 9, d, 0x10, h, 0] 2 0
        = ([⟨Deser.decode_single_byte_value k, Deser.decode_single_byte_value d,
             Deser.decode_single_byte_value h⟩], 6))
    ∧ Deser.parse_hot_cold_list [5, 9, 0x20, 0x33, 0x10, 0x20, 0] 2 0
      = ([⟨5, 51, 32⟩], 7) := by
  refine ⟨?_, ?_, rfl⟩
  · intro k d h hk0 hk1
    simp [Deser.parse_hot_cold_list, hk0, hk1]
  · intro k d h hk0 hk1 hd
    simp [Deser.parse_hot_cold_list, hk0, hk1, hd]

/-- C10 witness: both space conjuncts at concrete bytes. -/
theorem hot_cold_space_skip_C10_witness :
    Deser.parse_hot_cold_list [11, 9, 0x20, 3, 0x10, 4, 0] 2 0 = ([⟨11, 3, 4⟩], 7)
    ∧ Deser.parse_hot_cold_list [11, 9, 3, 0x10, 4, 0] 2 0 = ([⟨11, 3, 4⟩], 6) :=
  ⟨by simpa using hot_cold_space_skip_C10.1 11 3 4 (by decide) (by decide),
   by simpa using hot_cold_space_skip_C10.2.1 11 3 4 (by decide) (by decide) (by decide)⟩

end PyLib

namespace PyLib

/-- Byte lookup past a prefix: index `pre.length + k` lands at index `k`
of the suffix. -/
theorem byteAt_append (pre l : List Byte) (k : Nat) :
    (pre ++ l)[pre.length + k]? = l[k]? := by
  rw [List.getElem?_append_right (by omega)]
  congr 1
  omega

/-- Byte lookup at the end of a prefix: the suffix's first byte. -/
theorem byteAt_append0 (pre l : List Byte) :
    (pre ++ l)[pre.length]? = l[0]? := by
  simpa using byteAt_append pre l 0

/-- A `read(n)` that starts right after `pre` and covers exactly `nm`
returns `nm` and advances past it. -/
theorem readBytes_at (pre nm post : List Byte) (pos n : Nat)
    (hpos : pos = pre.length) (hn : n = nm.length) :
    readBytes (pre ++ (nm ++ post)) pos n = (nm, pos + n) := by
  subst hpos hn
  unfold readBytes
  refine Prod.ext ?_ ?_
  · show List.take nm.length (List.drop pre.length (pre ++ (nm ++ post))) = nm
    rw [List.drop_left' rfl]
    exact List.take_left' rfl
  · show (pre.length + nm.length) ⊓ (pre ++ (nm ++ post)).length = pre.length + nm.length
    simp only [List.length_append]
    omega

/-- A well-formed Hot/Cold wire entry: key byte, optional `0x20` after the
tab, draw byte, either an explicit `0x02` field-name declaration or the
implicit `0x10` marker, and a hits byte. -/
structure HCEntry where
  key : Byte
  space : Bool
  draw : Byte
  decl : Option (List Byte)
  hits : Byte

/-- Well-formedness for the `Deserializer` Hot/Cold parser: the key byte
is not a list stopper, and without the optional space the draw byte must
not itself be `0x20` (it would be eaten by the space skip). -/
def HCEntry.wf (e : HCEntry) : Prop :=
  e.key ≠ 0 ∧ e.key ≠ 1 ∧ (e.space = false → e.draw ≠ 0x20)

/-- The entry's bytes except the trailing `0x00` terminator. -/
def HCEntry.encCore (e : HCEntry) : List Byte :=
  [e.key] ++ (if e.space then [9, 0x20] else [9]) ++ [e.draw] ++
  (match e.decl with
   | none => [0x10]
   | some nm => [0x02, nm.length] ++ nm) ++ [e.hits]

/-- The entry's bytes including the `0x00` terminator. -/
def HCEntry.enc (e : HCEntry) : List Byte :=
  e.encCore ++ [0]

/-- The `HotColdItem` the `Deserializer` parser emits for this entry. -/
def HCEntry.item (e : HCEntry) : Deser.HotColdItem :=
  ⟨Deser.decode_single_byte_value e.key, Deser.decode_single_byte_value e.draw,
   Deser.decode_single_byte_value e.hits⟩

/-- One `Deserializer._parse_hot_cold_list` iteration over a well-formed
entry: the item is emitted; a `0x00` after the entry continues the loop
right past it, any other byte stops at it, and end of buffer stops one
byte earlier (the source's seek-back quirk). -/
theorem hc_entry (pre rest : List Byte) (e : HCEntry) (hwf : e.wf) (fuel : Nat) :
    Deser.parse_hot_cold_list (pre ++ (e.encCore ++ rest)) (fuel + 1) pre.length
      = (match rest[0]? with
         | some tm =>
           if tm = 0 then
             ((e.item :: (Deser.parse_hot_cold_list (pre ++ (e.encCore ++ rest)) fuel
                 (pre.length + (e.encCore.length + 1))).1,
               (Deser.parse_hot_cold_list (pre ++ (e.encCore ++ rest)) fuel
                 (pre.length + (e.encCore.length + 1))).2))
           else ([e.item], pre.length + e.encCore.length)
         | none => ([e.item], pre.length + e.encCore.length - 1)) := by
  obtain ⟨k, sp, d, decl, h⟩ := e
  obtain ⟨hk0, hk1, hsp⟩ := hwf
  cases decl with
  | none =>
    cases sp with
    | false =>
      have hd : d ≠ 0x20 := hsp rfl
      simp only [HCEntry.encCore, HCEntry.item, reduceIte, Bool.false_eq_true,
        List.append_assoc, List.cons_append, List.nil_append, List.append_nil,
        List.length_cons, List.length_nil]
      have hA0 : (pre ++ (k :: 9 :: d :: 16 :: h :: rest))[pre.length]? = some k := by
        rw [byteAt_append0]; simp
      have hA1 : (pre ++ (k :: 9 :: d :: 16 :: h :: rest))[pre.length + 1]? = some 9 := by
        rw [byteAt_append]; simp
      have hA2 : (pre ++ (k :: 9 :: d :: 16 :: h :: rest))[pre.length + 2]? = some d := by
        rw [byteAt_append]; simp
      have hA3 : (pre ++ (k :: 9 :: d :: 16 :: h :: rest))[pre.length + 3]? = some 16 := by
        rw [byteAt_append]; simp
      have hA4 : (pre ++ (k :: 9 :: d :: 16 :: h :: rest))[pre.length + 4]? = some h := by
        rw [byteAt_append]; simp
      have hA5 : (pre ++ (k :: 9 :: d :: 16 :: h :: rest))[pre.length + 5]? = rest[0]? := by
        rw [byteAt_append]; simp
      obtain ⟨hlt2, hg2⟩ := List.getElem?_eq_some.mp hA2
      simp only [Deser.parse_hot_cold_list, Nat.add_assoc, hA0, hA1, hA2]
      simp [hA3, hA4, hA5, hg2, Nat.add_assoc, hk0, hk1, hd]
      rcases hr : rest[0]? with _ | tm <;> simp [hr]
    | true =>
      simp only [HCEntry.encCore, HCEntry.item, reduceIte,
        List.append_assoc, List.cons_append, List.nil_append, List.append_nil,
        List.length_cons, List.length_nil]
      have hA0 : (pre ++ (k :: 9 :: 0x20 :: d :: 16 :: h :: rest))[pre.length]? = some k := by
        rw [byteAt_append0]; simp
      have hA1 : (pre ++ (k :: 9 :: 0x20 :: d :: 16 :: h :: rest))[pre.length + 1]? = some 9 := by
        rw [byteAt_append]; simp
      have hA2 : (pre ++ (k :: 9 :: 0x20 :: d :: 16 :: h :: rest))[pre.length + 2]? = some 0x20 := by
        rw [byteAt_append]; simp
      have hA3 : (pre ++ (k :: 9 :: 0x20 :: d :: 16 :: h :: rest))[pre.length + 3]? = some d := by
        rw [byteAt_append]; simp
      have hA4 : (pre ++ (k :: 9 :: 0x20 :: d :: 16 :: h :: rest))[pre.length + 4]? = some 16 := by
        rw [byteAt_append]; simp
      have hA5 : (pre ++ (k :: 9 :: 0x20 :: d :: 16 :: h :: rest))[pre.length + 5]? = some h := by
        rw [byteAt_append]; simp
      have hA6 : (pre ++ (k :: 9 :: 0x20 :: d :: 16 :: h :: rest))[pre.length + 6]? = rest[0]? := by
        rw [byteAt_append]; simp
      obtain ⟨hlt3, hg3⟩ := List.getElem?_eq_some.mp hA3
      simp only [Deser.parse_hot_cold_list, Nat.add_assoc, hA0, hA1, hA2, reduceIte]
      simp [hA3, hA4, hA5, hA6, hg3, Nat.add_assoc, hk0, hk1]
      rcases hr : rest[0]? with _ | tm <;> simp [hr]
  | some nm =>
    cases sp with
    | false =>
      have hd : d ≠ 0x20 := hsp rfl
      simp only [HCEntry.encCore, HCEntry.item, reduceIte, Bool.false_eq_true,
        List.append_assoc, List.cons_append, List.nil_append, List.append_nil,
        List.length_cons, List.length_nil, List.length_append]
      have hA0 : (pre ++ (k :: 9 :: d :: 2 :: nm.length :: (nm ++ h :: rest)))[pre.length]?
          = some k := by rw [byteAt_append0]; simp
      have hA1 : (pre ++ (k :: 9 :: d :: 2 :: nm.length :: (nm ++ h :: rest)))[pre.length + 1]?
          = some 9 := by rw [byteAt_append]; simp
      have hA2 : (pre ++ (k :: 9 :: d :: 2 :: nm.length :: (nm ++ h :: rest)))[pre.length + 2]?
          = some d := by rw [byteAt_append]; simp
      have hA3 : (pre ++ (k :: 9 :: d :: 2 :: nm.length :: (nm ++ h :: rest)))[pre.length + 3]?
          = some 2 := by rw [byteAt_append]; simp
      have hA4 : (pre ++ (k :: 9 :: d :: 2 :: nm.length :: (nm ++ h :: rest)))[pre.length + 4]?
          = some nm.length := by rw [byteAt_append]; simp
      have hread : readBytes (pre ++ (k :: 9 :: d :: 2 :: nm.length :: (nm ++ h :: rest)))
          (pre.length + 5) nm.length = (nm, pre.length + (5 + nm.length)) := by
        have heq : pre ++ (k :: 9 :: d :: 2 :: nm.length :: (nm ++ h :: rest))
            = (pre ++ [k, 9, d, 2, nm.length]) ++ (nm ++ (h :: rest)) := by simp
        rw [heq]
        have := readBytes_at (pre ++ [k, 9, d, 2, nm.length]) nm (h :: rest)
          (pre.length + 5) nm.length (by simp) rfl
        simpa [Nat.add_assoc] using this
      have hH : (pre ++ (k :: 9 :: d :: 2 :: nm.length :: (nm ++ h :: rest)))[pre.length
          + (5 + nm.length)]? = some h := by
        have heq : pre ++ (k :: 9 :: d :: 2 :: nm.length :: (nm ++ h :: rest))
            = (pre ++ (k :: 9 :: d :: 2 :: nm.length :: nm)) ++ (h :: rest) := by simp
        rw [heq, show pre.length + (5 + nm.length)
            = (pre ++ (k :: 9 :: d :: 2 :: nm.length :: nm)).length by simp; omega,
          byteAt_append0]
        simp
      have hT : (pre ++ (k :: 9 :: d :: 2 :: nm.length :: (nm ++ h :: rest)))[pre.length
          + (5 + (nm.length + 1))]? = rest[0]? := by
        have heq : pre ++ (k :: 9 :: d :: 2 :: nm.length :: (nm ++ h :: rest))
            = (pre ++ (k :: 9 :: d :: 2 :: nm.length :: (nm ++ [h]))) ++ rest := by simp
        rw [heq, show pre.length + (5 + (nm.length + 1))
            = (pre ++ (k :: 9 :: d :: 2 :: nm.length :: (nm ++ [h]))).length by simp; omega,
          byteAt_append0]
      obtain ⟨hlt2, hg2⟩ := List.getElem?_eq_some.mp hA2
      simp only [Deser.parse_hot_cold_list, Nat.add_assoc, hA0, hA1, hA2, reduceIte]
      simp [hA3, hA4, hread, hH, hT, hg2, Nat.add_assoc, hk0, hk1, hd]
      rcases hr : rest[0]? with _ | tm <;>
        simp [hr, hA2, hH, hT, Nat.add_assoc, Nat.add_comm, Nat.add_left_comm]
    | true =>
      simp only [HCEntry.encCore, HCEntry.item, reduceIte,
        List.append_assoc, List.cons_append, List.nil_append, List.append_nil,
        List.length_cons, List.length_nil, List.length_append]
      have hA0 : (pre ++ (k :: 9 :: 0x20 :: d :: 2 :: nm.length :: (nm ++ h :: rest)))[pre.length]?
          = some k := by rw [byteAt_append0]; simp
      have hA1 : (pre ++ (k :: 9 :: 0x20 :: d :: 2 :: nm.length :: (nm ++ h :: rest)))[pre.length + 1]?
          = some 9 := by rw [byteAt_append]; simp
      have hA2 : (pre ++ (k :: 9 :: 0x20 :: d :: 2 :: nm.length :: (nm ++ h :: rest)))[pre.length + 2]?
          = some 0x20 := by rw [byteAt_append]; simp
      have hA3 : (pre ++ (k :: 9 :: 0x20 :: d :: 2 :: nm.length :: (nm ++ h :: rest)))[pre.length + 3]?
          = some d := by rw [byteAt_append]; simp
      have hA4 : (pre ++ (k :: 9 :: 0x20 :: d :: 2 :: nm.length :: (nm ++ h :: rest)))[pre.length + 4]?
          = some 2 := by rw [byteAt_append]; simp
      have hA5 : (pre ++ (k :: 9 :: 0x20 :: d :: 2 :: nm.length :: (nm ++ h :: rest)))[pre.length + 5]?
          = some nm.length := by rw [byteAt_append]; simp
      have hread : readBytes (pre ++ (k :: 9 :: 0x20 :: d :: 2 :: nm.length :: (nm ++ h :: rest)))
          (pre.length + 6) nm.length = (nm, pre.length + (6 + nm.length)) := by
        have heq : pre ++ (k :: 9 :: 0x20 :: d :: 2 :: nm.length :: (nm ++ h :: rest))
            = (pre ++ [k, 9, 0x20, d, 2, nm.length]) ++ (nm ++ (h :: rest)) := by simp
        rw [heq]
        have := readBytes_at (pre ++ [k, 9, 0x20, d, 2, nm.length]) nm (h :: rest)
          (pre.length + 6) nm.length (by simp) rfl
        simpa [Nat.add_assoc] using this
      have hH : (pre ++ (k :: 9 :: 0x20 :: d :: 2 :: nm.length :: (nm ++ h :: rest)))[pre.length
          + (6 + nm.length)]? = some h := by
        have heq : pre ++ (k :: 9 :: 0x20 :: d :: 2 :: nm.length :: (nm ++ h :: rest))
            = (pre ++ (k :: 9 :: 0x20 :: d :: 2 :: nm.length :: nm)) ++ (h :: rest) := by simp
        rw [heq, show pre.length + (6 + nm.length)
            = (pre ++ (k :: 9 :: 0x20 :: d :: 2 :: nm.length :: nm)).length by simp; omega,
          byteAt_append0]
        simp
      have hT : (pre ++ (k :: 9 :: 0x20 :: d :: 2 :: nm.length :: (nm ++ h :: rest)))[pre.length
          + (6 + (nm.length + 1))]? = rest[0]? := by
        have heq : pre ++ (k :: 9 :: 0x20 :: d :: 2 :: nm.length :: (nm ++ h :: rest))
            = (pre ++ (k :: 9 :: 0x20 :: d :: 2 :: nm.length :: (nm ++ [h]))) ++ rest := by simp
        rw [heq, show pre.length + (6 + (nm.length + 1))
            = (pre ++ (k :: 9 :: 0x20 :: d :: 2 :: nm.length :: (nm ++ [h]))).length by simp; omega,
          byteAt_append0]
      obtain ⟨hlt3, hg3⟩ := List.getElem?_eq_some.mp hA3
      simp only [Deser.parse_hot_cold_list, Nat.add_assoc, hA0, hA1, hA2, reduceIte]
      simp [hA3, hA4, hA5, hread, hH, hT, hg3, Nat.add_assoc, hk0, hk1]
      rcases hr : rest[0]? with _ | tm <;>
        simp [hr, hA3, hH, hT, Nat.add_assoc, Nat.add_comm, Nat.add_left_comm]

end PyLib

namespace PyLib

/-- Concatenation of terminated Hot/Cold entry encodings. -/
def encAllHC (es : List HCEntry) : List Byte := (es.map HCEntry.enc).flatten

/-- `Deserializer._parse_hot_cold_list` over any run of well-formed
`0x00`-terminated entries followed by a list ender (end of buffer, `0x00`
or `0x01`): exactly one item per entry, in input order. -/
theorem hc_concat : ∀ (es : List HCEntry) (rest : List Byte),
    (∀ e ∈ es, e.wf) → (rest = [] ∨ rest[0]? = some 0 ∨ rest[0]? = some 1) →
    ∀ (pre : List Byte) (fuel : Nat), es.length < fuel →
      Deser.parse_hot_cold_list (pre ++ (encAllHC es ++ rest)) fuel pre.length
        = (es.map HCEntry.item, pre.length + (encAllHC es).length) := by
  intro es
  induction es with
  | nil =>
    intro rest hwf hrest pre fuel hf
    cases fuel with
    | zero => omega
    | succ f =>
      simp only [encAllHC, List.map_nil, List.flatten_nil, List.nil_append, List.length_nil,
        Nat.add_zero]
      rcases hrest with h | h | h
      · subst h
        have hnone : (pre ++ ([] : List Byte))[pre.length]? = none := by simp
        simp [Deser.parse_hot_cold_list, hnone]
      · have h0 : (pre ++ rest)[pre.length]? = some 0 := by rw [byteAt_append0]; exact h
        simp [Deser.parse_hot_cold_list, h0]
      · have h1 : (pre ++ rest)[pre.length]? = some 1 := by rw [byteAt_append0]; exact h
        simp [Deser.parse_hot_cold_list, h1]
  | cons e es ih =>
    intro rest hwf hrest pre fuel hf
    cases fuel with
    | zero => omega
    | succ f =>
      have hbuf : pre ++ (encAllHC (e :: es) ++ rest)
          = pre ++ (e.encCore ++ (0 :: (encAllHC es ++ rest))) := by
        simp [encAllHC, HCEntry.enc, List.append_assoc]
      rw [hbuf, hc_entry pre _ e (hwf e (by simp)) f]
      simp only [List.getElem?_cons_zero, reduceIte]
      have hbuf2 : pre ++ (e.encCore ++ (0 :: (encAllHC es ++ rest)))
          = (pre ++ e.enc) ++ (encAllHC es ++ rest) := by
        simp [HCEntry.enc, List.append_assoc]
      have hidx : pre.length + (e.encCore.length + 1) = (pre ++ e.enc).length := by
        simp [HCEntry.enc]
      have ih' := ih rest (fun x hx => hwf x (by simp [hx])) hrest (pre ++ e.enc) f
        (by simp at hf; omega)
      rw [hbuf2, hidx, ih']
      refine Prod.ext ?_ ?_
      · simp
      · simp [encAllHC, HCEntry.enc]
        omega

/-- The field name in force after an entry of `final.py`'s Hot/Cold list:
an explicit `0x02` declaration replaces it, otherwise it persists. -/
def fnAfter (fn : String) (e : HCEntry) : String :=
  match e.decl with
  | none => fn
  | some nm => utf8IgnoreStr nm

/-- The dict `UnifiedParser._parse_hot_cold_list` emits for entry `e` at
index `i` with current field name `fn`. -/
def itemF (i : Nat) (fn : String) (e : HCEntry) : Nat × List (String × Nat) :=
  (i, Deser.dictInsert [("Draw", Final.decode_single_byte_value e.draw)] (fnAfter fn e)
    (Final.decode_single_byte_value e.hits))

/-- One `UnifiedParser._parse_hot_cold_list` iteration over a well-formed
entry (no space byte: `final.py` strips spaces up front). -/
theorem hcF_entry (pre rest : List Byte) (e : HCEntry) (hk1 : e.key ≠ 1)
    (hsp : e.space = false) (fuel i : Nat) (fn : String) :
    Final.parse_hot_cold_list (pre ++ (e.encCore ++ rest)) (fuel + 1) pre.length i fn
      = (match rest[0]? with
         | some tm =>
           if tm = 0 then
             (match Final.parse_hot_cold_list (pre ++ (e.encCore ++ rest)) fuel
                 (pre.length + (e.encCore.length + 1)) (i + 1) (fnAfter fn e) with
              | .error err => .error err
              | .ok (tail, fp) => .ok (itemF i fn e :: tail, fp))
           else .ok ([itemF i fn e], pre.length + e.encCore.length)
         | none => .ok ([itemF i fn e], pre.length + e.encCore.length - 1)) := by
  obtain ⟨k, sp, d, decl, h⟩ := e
  subst hsp
  simp only at hk1
  cases decl with
  | none =>
    simp only [HCEntry.encCore, itemF, fnAfter, reduceIte, Bool.false_eq_true,
      List.append_assoc, List.cons_append, List.nil_append, List.append_nil,
      List.length_cons, List.length_nil]
    have hA0 : (pre ++ (k :: 9 :: d :: 16 :: h :: rest))[pre.length]? = some k := by
      rw [byteAt_append0]; simp
    have hA1 : (pre ++ (k :: 9 :: d :: 16 :: h :: rest))[pre.length + 1]? = some 9 := by
      rw [byteAt_append]; simp
    have hA2 : (pre ++ (k :: 9 :: d :: 16 :: h :: rest))[pre.length + 2]? = some d := by
      rw [byteAt_append]; simp
    have hA3 : (pre ++ (k :: 9 :: d :: 16 :: h :: rest))[pre.length + 3]? = some 16 := by
      rw [byteAt_append]; simp
    have hA4 : (pre ++ (k :: 9 :: d :: 16 :: h :: rest))[pre.length + 4]? = some h := by
      rw [byteAt_append]; simp
    have hA5 : (pre ++ (k :: 9 :: d :: 16 :: h :: rest))[pre.length + 5]? = rest[0]? := by
      rw [byteAt_append]; simp
    simp only [Final.parse_hot_cold_list, Nat.add_assoc, hA0, hA1, hA2, reduceIte]
    simp [hA3, hA4, hA5, Nat.add_assoc, hk1]
    rcases hr : rest[0]? with _ | tm <;> simp [hr]
  | some nm =>
    simp only [HCEntry.encCore, itemF, fnAfter, reduceIte, Bool.false_eq_true,
      List.append_assoc, List.cons_append, List.nil_append, List.append_nil,
      List.length_cons, List.length_nil, List.length_append]
    have hA0 : (pre ++ (k :: 9 :: d :: 2 :: nm.length :: (nm ++ h :: rest)))[pre.length]?
        = some k := by rw [byteAt_append0]; simp
    have hA1 : (pre ++ (k :: 9 :: d :: 2 :: nm.length :: (nm ++ h :: rest)))[pre.length + 1]?
        = some 9 := by rw [byteAt_append]; simp
    have hA2 : (pre ++ (k :: 9 :: d :: 2 :: nm.length :: (nm ++ h :: rest)))[pre.length + 2]?
        = some d := by rw [byteAt_append]; simp
    have hA3 : (pre ++ (k :: 9 :: d :: 2 :: nm.length :: (nm ++ h :: rest)))[pre.length + 3]?
        = some 2 := by rw [byteAt_append]; simp
    have hA4 : (pre ++ (k :: 9 :: d :: 2 :: nm.length :: (nm ++ h :: rest)))[pre.length + 4]?
        = some nm.length := by rw [byteAt_append]; simp
    have hread : readBytes (pre ++ (k :: 9 :: d :: 2 :: nm.length :: (nm ++ h :: rest)))
        (pre.length + 5) nm.length = (nm, pre.length + (5 + nm.length)) := by
      have heq : pre ++ (k :: 9 :: d :: 2 :: nm.length :: (nm ++ h :: rest))
          = (pre ++ [k, 9, d, 2, nm.length]) ++ (nm ++ (h :: rest)) := by simp
      rw [heq]
      have := readBytes_at (pre ++ [k, 9, d, 2, nm.length]) nm (h :: rest)
        (pre.length + 5) nm.length (by simp) rfl
      simpa [Nat.add_assoc] using this
    have hH : (pre ++ (k :: 9 :: d :: 2 :: nm.length :: (nm ++ h :: rest)))[pre.length
        + (5 + nm.length)]? = some h := by
      have heq : pre ++ (k :: 9 :: d :: 2 :: nm.length :: (nm ++ h :: rest))
          = (pre ++ (k :: 9 :: d :: 2 :: nm.length :: nm)) ++ (h :: rest) := by simp
      rw [heq, show pre.length + (5 + nm.length)
          = (pre ++ (k :: 9 :: d :: 2 :: nm.length :: nm)).length by simp; omega,
        byteAt_append0]
      simp
    have hT : (pre ++ (k :: 9 :: d :: 2 :: nm.length :: (nm ++ h :: rest)))[pre.length
        + (5 + (nm.length + 1))]? = rest[0]? := by
      have heq : pre ++ (k :: 9 :: d :: 2 :: nm.length :: (nm ++ h :: rest))
          = (pre ++ (k :: 9 :: d :: 2 :: nm.length :: (nm ++ [h]))) ++ rest := by simp
      rw [heq, show pre.length + (5 + (nm.length + 1))
          = (pre ++ (k :: 9 :: d :: 2 :: nm.length :: (nm ++ [h]))).length by simp; omega,
        byteAt_append0]
    simp only [Final.parse_hot_cold_list, Nat.add_assoc, hA0, hA1, hA2, reduceIte]
    simp [hA3, hA4, hread, hH, hT, Nat.add_assoc, hk1]
    rcases hr : rest[0]? with _ | tm <;>
      simp [hr, hA2, hH, hT, Nat.add_assoc, Nat.add_comm, Nat.add_left_comm]

/-- The items `UnifiedParser._parse_hot_cold_list` emits for a run of
entries starting at index `i` with field name `fn` in force: an explicit
declaration on one entry persists for all later entries. -/
def hcItemsF : Nat → String → List HCEntry → List (Nat × List (String × Nat))
  | _, _, [] => []
  | i, fn, e :: es => itemF i fn e :: hcItemsF (i + 1) (fnAfter fn e) es

/-- `UnifiedParser._parse_hot_cold_list` over any run of well-formed
`0x00`-terminated entries followed by end of buffer or `0x01`: one dict
per entry, indices consecutive, the declared field name threading through
the rest of the list. -/
theorem hcF_concat : ∀ (es : List HCEntry) (rest : List Byte),
    (∀ e ∈ es, e.key ≠ 1 ∧ e.space = false) → (rest = [] ∨ rest[0]? = some 1) →
    ∀ (pre : List Byte) (fuel i : Nat) (fn : String), es.length < fuel →
      Final.parse_hot_cold_list (pre ++ (encAllHC es ++ rest)) fuel pre.length i fn
        = .ok (hcItemsF i fn es, pre.length + (encAllHC es).length) := by
  intro es
  induction es with
  | nil =>
    intro rest hwf hrest pre fuel i fn hf
    cases fuel with
    | zero => omega
    | succ f =>
      simp only [encAllHC, List.map_nil, List.flatten_nil, List.nil_append, List.length_nil,
        Nat.add_zero, hcItemsF]
      rcases hrest with h | h
      · subst h
        have hnone : (pre ++ ([] : List Byte))[pre.length]? = none := by simp
        simp [Final.parse_hot_cold_list, hnone]
      · have h1 : (pre ++ rest)[pre.length]? = some 1 := by rw [byteAt_append0]; exact h
        simp [Final.parse_hot_cold_list, h1]
  | cons e es ih =>
    intro rest hwf hrest pre fuel i fn hf
    cases fuel with
    | zero => omega
    | succ f =>
      have hbuf : pre ++ (encAllHC (e :: es) ++ rest)
          = pre ++ (e.encCore ++ (0 :: (encAllHC es ++ rest))) := by
        simp [encAllHC, HCEntry.enc, List.append_assoc]
      rw [hbuf, hcF_entry pre _ e (hwf e (by simp)).1 (hwf e (by simp)).2 f i fn]
      simp only [List.getElem?_cons_zero, reduceIte]
      have hbuf2 : pre ++ (e.encCore ++ (0 :: (encAllHC es ++ rest)))
          = (pre ++ e.enc) ++ (encAllHC es ++ rest) := by
        simp [HCEntry.enc, List.append_assoc]
      have hidx : pre.length + (e.encCore.length + 1) = (pre ++ e.enc).length := by
        simp [HCEntry.enc]
      have ih' := ih rest (fun x hx => hwf x (by simp [hx])) hrest (pre ++ e.enc) f (i + 1)
        (fnAfter fn e) (by simp at hf; omega)
      rw [hbuf2, hidx, ih']
      simp only [hcItemsF, Except.ok.injEq, Prod.mk.injEq]
      refine ⟨trivial, ?_⟩
      simp [encAllHC, HCEntry.enc]
      omega

end PyLib

namespace PyLib

/-- C6: (1) in `Deserializer._parse_hot_cold_list`, 5 well-formed entries
each terminated by `0x00` and followed by a list ender decode to exactly 5
items in input order; (2) in `UnifiedParser._parse_hot_cold_list`, a run
of well-formed entries decodes to one dict per entry where the hits key is
the field name in force — an explicit `0x02` declaration on one entry
persists as the hits field's name for all later entries of that same list
(the `fnAfter` fold); (3) an entry whose trailing `0x00` terminator is
absent ends the list after emitting the item — the cursor stays on the
offending byte and no error is raised. -/
theorem hot_cold_C6 :
    (∀ e1 e2 e3 e4 e5 : HCEntry, ∀ rest : List Byte,
      e1.wf → e2.wf → e3.wf → e4.wf → e5.wf →
      (rest = [] ∨ rest[0]? = some 0 ∨ rest[0]? = some 1) →
      Deser.parse_hot_cold_list (encAllHC [e1, e2, e3, e4, e5] ++ rest) 6 0
        = ([e1.item, e2.item, e3.item, e4.item, e5.item],
           (encAllHC [e1, e2, e3, e4, e5]).length))
    ∧ (∀ es : List HCEntry, ∀ rest : List Byte,
      (∀ e ∈ es, e.key ≠ 1 ∧ e.space = false) → (rest = [] ∨ rest[0]? = some 1) →
      ∀ (i : Nat) (fn : String),
      Final.parse_hot_cold_list (encAllHC es ++ rest) (es.length + 1) 0 i fn
        = .ok (hcItemsF i fn es, (encAllHC es).length))
    ∧ (∀ e : HCEntry, e.wf → ∀ (b : Byte) (rest : List Byte), b ≠ 0 →
      Deser.parse_hot_cold_list (e.encCore ++ (b :: rest)) 2 0
        = ([e.item], e.encCore.length)) := by
  refine ⟨?_, ?_, ?_⟩
  · intro e1 e2 e3 e4 e5 rest h1 h2 h3 h4 h5 hrest
    have := hc_concat [e1, e2, e3, e4, e5] rest
      (by intro x hx; simp at hx; rcases hx with rfl | rfl | rfl | rfl | rfl <;> assumption)
      hrest [] 6 (by simp)
    simpa using this
  · intro es rest hwf hrest i fn
    have := hcF_concat es rest hwf hrest [] (es.length + 1) i fn (by omega)
    simpa using this
  · intro e hwf b rest hb
    have := hc_entry [] (b :: rest) e hwf 1
    simpa [hb] using this

/-- C6 witness: five concrete entries (with and without the optional
space, with an explicit declaration on the third) for the `Deserializer`
list; three concrete `final.py` entries where the `Hi` declaration on the
second persists as the key of the third; and a concrete terminator-less
entry. -/
theorem hot_cold_C6_witness :
    Deser.parse_hot_cold_list
      (encAllHC [⟨0x0B, false, 0x33, none, 0x3A⟩, ⟨0x0C, true, 0x20, none, 0x39⟩,
        ⟨0x0D, false, 0x36, some [0x48, 0x69], 0x39⟩, ⟨0x0E, true, 0x18, some [], 0x31⟩,
        ⟨0x0F, false, 0x30, none, 0x32⟩] ++ [0]) 6 0
      = ([HCEntry.item ⟨0x0B, false, 0x33, none, 0x3A⟩,
          HCEntry.item ⟨0x0C, true, 0x20, none, 0x39⟩,
          HCEntry.item ⟨0x0D, false, 0x36, some [0x48, 0x69], 0x39⟩,
          HCEntry.item ⟨0x0E, true, 0x18, some [], 0x31⟩,
          HCEntry.item ⟨0x0F, false, 0x30, none, 0x32⟩],
         (encAllHC [⟨0x0B, false, 0x33, none, 0x3A⟩, ⟨0x0C, true, 0x20, none, 0x39⟩,
           ⟨0x0D, false, 0x36, some [0x48, 0x69], 0x39⟩, ⟨0x0E, true, 0x18, some [], 0x31⟩,
           ⟨0x0F, false, 0x30, none, 0x32⟩]).length)
    ∧ Final.parse_hot_cold_list
        (encAllHC [⟨5, false, 0x33, none, 0x34⟩, ⟨6, false, 0x35, some [0x48, 0x69], 0x36⟩,
          ⟨7, false, 0x37, none, 0x38⟩] ++ [1]) 4 0 0 "Hits"
      = .ok (hcItemsF 0 "Hits" [⟨5, false, 0x33, none, 0x34⟩,
          ⟨6, false, 0x35, some [0x48, 0x69], 0x36⟩, ⟨7, false, 0x37, none, 0x38⟩],
          (encAllHC [⟨5, false, 0x33, none, 0x34⟩, ⟨6, false, 0x35, some [0x48, 0x69], 0x36⟩,
            ⟨7, false, 0x37, none, 0x38⟩]).length)
    ∧ Deser.parse_hot_cold_list
        (HCEntry.encCore ⟨0x0B, false, 0x33, none, 0x3A⟩ ++ (0x55 :: [])) 2 0
      = ([HCEntry.item ⟨0x0B, false, 0x33, none, 0x3A⟩],
         (HCEntry.encCore ⟨0x0B, false, 0x33, none, 0x3A⟩).length) :=
  ⟨hot_cold_C6.1 _ _ _ _ _ [0] (by simp [HCEntry.wf]) (by simp [HCEntry.wf])
     (by simp [HCEntry.wf]) (by simp [HCEntry.wf]) (by simp [HCEntry.wf])
     (Or.inr (Or.inl rfl)),
   hot_cold_C6.2.1 _ [1] (by decide) (Or.inr rfl) 0 "Hits",
   hot_cold_C6.2.2 _ (by simp [HCEntry.wf]) 0x55 [] (by decide)⟩

end PyLib

namespace PyLib

/-- The key of a Hits wire entry: an implicit single key byte, or an
explicit `0x01` + length-prefixed name. -/
inductive HitKeySpec where
  | imp (kb : Byte)
  | exp (nm : List Byte)

/-- A Hits wire entry: key spec, `0x10` marker, value byte. -/
structure HitEntry where
  k : HitKeySpec
  val : Byte

/-- Well-formedness: an implicit key byte is not a stopper, an explicit
name is not the list-ending `PreviousResults`. -/
def HitEntry.wf : HitEntry → Prop
  | ⟨.imp kb, _⟩ => kb ≠ 0 ∧ kb ≠ 1
  | ⟨.exp nm, _⟩ => utf8IgnoreStr nm ≠ "PreviousResults"

/-- The entry's bytes except the trailing `0x00` terminator. -/
def HitEntry.encCore : HitEntry → List Byte
  | ⟨.imp kb, v⟩ => [kb, 0x10, v]
  | ⟨.exp nm, v⟩ => [1, nm.length] ++ nm ++ [0x10, v]

/-- The entry's bytes including the `0x00` terminator. -/
def HitEntry.enc (e : HitEntry) : List Byte :=
  e.encCore ++ [0]

/-- The `HitsItem` the `Deserializer` parser emits: an implicit key is the
INTEGER decoded from the key byte, an explicit key the decoded name. -/
def HitEntry.item : HitEntry → Deser.HitsItem
  | ⟨.imp kb, v⟩ => ⟨.int (Deser.decode_single_byte_value kb), Deser.decode_single_byte_value v⟩
  | ⟨.exp nm, v⟩ => ⟨.str (utf8IgnoreStr nm), Deser.decode_single_byte_value v⟩

/-- One `Deserializer._parse_hits_object` iteration over a well-formed
entry. -/
theorem hits_entry (pre rest : List Byte) (e : HitEntry) (hwf : e.wf) (fuel : Nat) :
    Deser.parse_hits_object (pre ++ (e.encCore ++ rest)) (fuel + 1) pre.length
      = (match rest[0]? with
         | some tm =>
           if tm = 0 then
             ((e.item :: (Deser.parse_hits_object (pre ++ (e.encCore ++ rest)) fuel
                 (pre.length + (e.encCore.length + 1))).1,
               (Deser.parse_hits_object (pre ++ (e.encCore ++ rest)) fuel
                 (pre.length + (e.encCore.length + 1))).2))
           else ([e.item], pre.length + e.encCore.length)
         | none => ([e.item], pre.length + e.encCore.length - 1)) := by
  obtain ⟨ks, v⟩ := e
  cases ks with
  | imp kb =>
    obtain ⟨hk0, hk1⟩ := hwf
    simp only [HitEntry.encCore, HitEntry.item, List.cons_append, List.nil_append,
      List.length_cons, List.length_nil]
    have hA0 : (pre ++ (kb :: 16 :: v :: rest))[pre.length]? = some kb := by
      rw [byteAt_append0]; simp
    have hA1 : (pre ++ (kb :: 16 :: v :: rest))[pre.length + 1]? = some 16 := by
      rw [byteAt_append]; simp
    have hA2 : (pre ++ (kb :: 16 :: v :: rest))[pre.length + 2]? = some v := by
      rw [byteAt_append]; simp
    have hA3 : (pre ++ (kb :: 16 :: v :: rest))[pre.length + 3]? = rest[0]? := by
      rw [byteAt_append]; simp
    simp only [Deser.parse_hits_object, Nat.add_assoc, hA0, hA1, hA2, reduceIte]
    simp [hA3, Nat.add_assoc, hk0, hk1]
    rcases hr : rest[0]? with _ | tm <;> simp [hr]
  | exp nm =>
    have hnm : utf8IgnoreStr nm ≠ "PreviousResults" := hwf
    simp only [HitEntry.encCore, HitEntry.item, List.append_assoc, List.cons_append,
      List.nil_append, List.length_cons, List.length_nil, List.length_append]
    have hA0 : (pre ++ (1 :: nm.length :: (nm ++ 16 :: v :: rest)))[pre.length]? = some 1 := by
      rw [byteAt_append0]; simp
    have hA1 : (pre ++ (1 :: nm.length :: (nm ++ 16 :: v :: rest)))[pre.length + 1]?
        = some nm.length := by rw [byteAt_append]; simp
    have hdrop : ((pre ++ (1 :: nm.length :: (nm ++ 16 :: v :: rest))).drop
        (pre.length + 2)).take nm.length = nm := by
      have heq : pre ++ (1 :: nm.length :: (nm ++ 16 :: v :: rest))
          = (pre ++ [1, nm.length]) ++ (nm ++ (16 :: v :: rest)) := by simp
      rw [heq, List.drop_left' (by simp), List.take_left' rfl]
    have hble : pre.length + (2 + nm.length)
        ≤ (pre ++ (1 :: nm.length :: (nm ++ 16 :: v :: rest))).length := by
      simp
      omega
    have hread : readBytes (pre ++ (1 :: nm.length :: (nm ++ 16 :: v :: rest)))
        (pre.length + 2) nm.length = (nm, pre.length + (2 + nm.length)) := by
      have heq : pre ++ (1 :: nm.length :: (nm ++ 16 :: v :: rest))
          = (pre ++ [1, nm.length]) ++ (nm ++ (16 :: v :: rest)) := by simp
      rw [heq]
      have := readBytes_at (pre ++ [1, nm.length]) nm (16 :: v :: rest)
        (pre.length + 2) nm.length (by simp) rfl
      simpa [Nat.add_assoc] using this
    have hM : (pre ++ (1 :: nm.length :: (nm ++ 16 :: v :: rest)))[pre.length
        + (2 + nm.length)]? = some 16 := by
      have heq : pre ++ (1 :: nm.length :: (nm ++ 16 :: v :: rest))
          = (pre ++ (1 :: nm.length :: nm)) ++ (16 :: v :: rest) := by simp
      rw [heq, show pre.length + (2 + nm.length)
          = (pre ++ (1 :: nm.length :: nm)).length by simp; omega, byteAt_append0]
      simp
    have hV : (pre ++ (1 :: nm.length :: (nm ++ 16 :: v :: rest)))[pre.length
        + (2 + (nm.length + 1))]? = some v := by
      have heq : pre ++ (1 :: nm.length :: (nm ++ 16 :: v :: rest))
          = (pre ++ (1 :: nm.length :: (nm ++ [16]))) ++ (v :: rest) := by simp
      rw [heq, show pre.length + (2 + (nm.length + 1))
          = (pre ++ (1 :: nm.length :: (nm ++ [16]))).length by simp; omega, byteAt_append0]
      simp
    have hT : (pre ++ (1 :: nm.length :: (nm ++ 16 :: v :: rest)))[pre.length
        + (2 + (nm.length + 2))]? = rest[0]? := by
      have heq : pre ++ (1 :: nm.length :: (nm ++ 16 :: v :: rest))
          = (pre ++ (1 :: nm.length :: (nm ++ [16, v]))) ++ rest := by simp
      rw [heq, show pre.length + (2 + (nm.length + 2))
          = (pre ++ (1 :: nm.length :: (nm ++ [16, v]))).length by simp; omega, byteAt_append0]
    simp only [Deser.parse_hits_object, Nat.add_assoc, hA0, hA1, hdrop, reduceIte]
    simp [hread, hM, hV, hT, hnm, hble, Nat.add_assoc]
    rcases hr : rest[0]? with _ | tm <;>
      simp [hr, hM, hV, hT, Nat.add_assoc, Nat.add_comm, Nat.add_left_comm]

/-- Concatenation of terminated Hits entry encodings. -/
def encAllHits (es : List HitEntry) : List Byte := (es.map HitEntry.enc).flatten

/-- `Deserializer._parse_hits_object` over any run of well-formed
`0x00`-terminated entries followed by end of buffer or a `0x00`: one item
per entry, in input order. -/
theorem hits_concat : ∀ (es : List HitEntry) (rest : List Byte),
    (∀ e ∈ es, e.wf) → (rest = [] ∨ rest[0]? = some 0) →
    ∀ (pre : List Byte) (fuel : Nat), es.length < fuel →
      Deser.parse_hits_object (pre ++ (encAllHits es ++ rest)) fuel pre.length
        = (es.map HitEntry.item, pre.length + (encAllHits es).length) := by
  intro es
  induction es with
  | nil =>
    intro rest hwf hrest pre fuel hf
    cases fuel with
    | zero => omega
    | succ f =>
      simp only [encAllHits, List.map_nil, List.flatten_nil, List.nil_append, List.length_nil,
        Nat.add_zero]
      rcases hrest with h | h
      · subst h
        have hnone : (pre ++ ([] : List Byte))[pre.length]? = none := by simp
        simp [Deser.parse_hits_object, hnone]
      · have h0 : (pre ++ rest)[pre.length]? = some 0 := by rw [byteAt_append0]; exact h
        simp [Deser.parse_hits_object, h0]
  | cons e es ih =>
    intro rest hwf hrest pre fuel hf
    cases fuel with
    | zero => omega
    | succ f =>
      have hbuf : pre ++ (encAllHits (e :: es) ++ rest)
          = pre ++ (e.encCore ++ (0 :: (encAllHits es ++ rest))) := by
        simp [encAllHits, HitEntry.enc, List.append_assoc]
      rw [hbuf, hits_entry pre _ e (hwf e (by simp)) f]
      simp only [List.getElem?_cons_zero, reduceIte]
      have hbuf2 : pre ++ (e.encCore ++ (0 :: (encAllHits es ++ rest)))
          = (pre ++ e.enc) ++ (encAllHits es ++ rest) := by
        simp [HitEntry.enc, List.append_assoc]
      have hidx : pre.length + (e.encCore.length + 1) = (pre ++ e.enc).length := by
        simp [HitEntry.enc]
      have ih' := ih rest (fun x hx => hwf x (by simp [hx])) hrest (pre ++ e.enc) f
        (by simp at hf; omega)
      rw [hbuf2, hidx, ih']
      refine Prod.ext ?_ ?_
      · simp
      · simp [encAllHits, HitEntry.enc]
        omega

end PyLib

namespace PyLib

/-- C7 counterexample: two implicit Hits entries with the SAME key byte
`0x07` decode (in `Deserializer._parse_hits_object`) to two items whose
keys are both the INTEGER 7 — implicit keys are not strings, and they are
the decoded key bytes, not stringified consecutive indices (which would
have been "0" and "1"). -/
theorem hits_keys_C7_counterexample :
    Deser.parse_hits_object [7, 0x10, 0x3A, 0, 7, 0x10, 0x3A, 0] 10 0
      = ([⟨.int 7, 10⟩, ⟨.int 7, 10⟩], 8) :=
  rfl

/-- C7 (amended): in `Deserializer._parse_hits_object`, a stream of 7
implicit-key entries followed by N explicit-string-key entries (each
introduced by `0x01` plus a length-prefixed name) yields exactly `7 + N`
items in original input order, where each implicit key is the INTEGER
decoded from its key byte via the single-byte decode rule (not a
stringified index — `final.py` instead keys implicit entries by the
stringified running item index), an explicit key is the decoded
length-prefixed name, and every entry's value follows a required `0x10`
marker. -/
theorem hits_keys_C7 :
    ∀ (imps : List (Byte × Byte)) (exps : List (List Byte × Byte)) (rest : List Byte),
      imps.length = 7 →
      (∀ p ∈ imps, p.1 ≠ 0 ∧ p.1 ≠ 1) →
      (∀ p ∈ exps, utf8IgnoreStr p.1 ≠ "PreviousResults") →
      (rest = [] ∨ rest[0]? = some 0) →
      Deser.parse_hits_object
        (encAllHits ((imps.map fun p => HitEntry.mk (.imp p.1) p.2)
          ++ (exps.map fun p => HitEntry.mk (.exp p.1) p.2)) ++ rest)
        (7 + exps.length + 1) 0
        = ((imps.map fun p => HitEntry.item (HitEntry.mk (.imp p.1) p.2))
            ++ (exps.map fun p => HitEntry.item (HitEntry.mk (.exp p.1) p.2)),
           (encAllHits ((imps.map fun p => HitEntry.mk (.imp p.1) p.2)
             ++ (exps.map fun p => HitEntry.mk (.exp p.1) p.2))).length)
      ∧ ((imps.map fun p => HitEntry.item (HitEntry.mk (.imp p.1) p.2))
          ++ (exps.map fun p => HitEntry.item (HitEntry.mk (.exp p.1) p.2))).length
        = 7 + exps.length := by
  intro imps exps rest hlen himp hexp hrest
  have hwf : ∀ e ∈ (imps.map fun p => HitEntry.mk (.imp p.1) p.2)
      ++ (exps.map fun p => HitEntry.mk (.exp p.1) p.2), e.wf := by
    intro x hx
    rcases List.mem_append.mp hx with hx | hx
    · obtain ⟨p, hp, rfl⟩ := List.mem_map.mp hx
      exact himp p hp
    · obtain ⟨p, hp, rfl⟩ := List.mem_map.mp hx
      exact hexp p hp
  have hres := hits_concat _ rest hwf hrest [] (7 + exps.length + 1)
    (by simp [hlen])
  constructor
  · simpa using hres
  · simp [hlen]

/-- C7 witness: 7 concrete implicit entries (note the duplicated key byte
7) followed by 2 explicit entries, ending at a `0x00`. -/
theorem hits_keys_C7_witness :
    Deser.parse_hits_object
      (encAllHits (([(7, 0x3A), (7, 0x3A), (10, 0x35), (11, 0x39), (12, 0x35),
          (13, 0x38), (14, 0x35)].map fun p => HitEntry.mk (.imp p.1) p.2)
        ++ ([([0x36], 0x39), ([0x4C, 0x6F], 0x20)].map fun p => HitEntry.mk (.exp p.1) p.2))
        ++ [0]) 10 0
      = (([(7, 0x3A), (7, 0x3A), (10, 0x35), (11, 0x39), (12, 0x35),
          (13, 0x38), (14, 0x35)].map fun p => HitEntry.item (HitEntry.mk (.imp p.1) p.2))
          ++ ([([0x36], 0x39), ([0x4C, 0x6F], 0x20)].map fun p =>
               HitEntry.item (HitEntry.mk (.exp p.1) p.2)),
         (encAllHits (([(7, 0x3A), (7, 0x3A), (10, 0x35), (11, 0x39), (12, 0x35),
           (13, 0x38), (14, 0x35)].map fun p => HitEntry.mk (.imp p.1) p.2)
          ++ ([([0x36], 0x39), ([0x4C, 0x6F], 0x20)].map fun p =>
               HitEntry.mk (.exp p.1) p.2))).length) :=
  (hits_keys_C7 [(7, 0x3A), (7, 0x3A), (10, 0x35), (11, 0x39), (12, 0x35), (13, 0x38),
    (14, 0x35)] [([0x36], 0x39), ([0x4C, 0x6F], 0x20)] [0] rfl (by decide) (by decide)
    (Or.inr rfl)).1

end PyLib
